import Mathlib

/-
Shallow embedding of discord-argparse (src/discord_argparse.py).

The repository provides a single class `ArgumentConverter` whose method
`convert(ctx, argstr)` tokenizes a raw argument string with shlex.split,
splits each token on "=" into a name and a value, looks the lower-cased
name up in the declared-argument registry, converts the value with the
declared converter via `_convert_value`, accumulates the results in a dict
keyed by the original-cased token name, and finally enforces required
arguments and fills declared defaults.  `defaults()` returns the mapping
of declared names to non-None defaults.

Modelling decisions, each tied to the source:
- Python dicts are modelled as association lists with Python dict
  semantics: lookup returns the first (and, keys being unique in a real
  dict, only) binding; assignment overwrites in place or appends.
- `shlex.split` is modelled for inputs that contain no quote, escape or
  non-space whitespace characters (all inputs used by the claims are of
  this shape): it splits on runs of spaces.
- `raw_arg.split("=")` and `"=".join(values)` are modelled by pySplit and
  pyJoin with exact Python str.split / str.join semantics on a one-char
  separator.
- `value.lower()` and `name.lower()` are modelled by pyLower (ASCII lower
  casing, which Char.toLower performs on the ASCII inputs involved).
- A converter value (the `converter` attribute of an Argument) is one of
  the shapes `_convert_value` distinguishes:
    * Conv.boolType: the converter is exactly the builtin type bool.
      NOTE the source line `return _convert_to_bool(value)` refers to an
      undefined module-level global (the method is only reachable as
      `self._convert_to_bool`), so the interpreter raises NameError here;
      the model records this as CVErr.nameErr.
    * Conv.discordType a?: a type from a module matching
      `module.startswith("discord.") and not module.endswith("converter")`.
      The source substitutes `getattr(converters, name + "Converter")`.
      `a? = some f` models a successful substitution whose adapter class,
      once instantiated, has convert-behaviour f; `a? = none` models a
      getattr miss, which raises AttributeError outside every try block of
      `_convert_value`, recorded as CVErr.attrErr.
    * Conv.converterClass f: a class subclassing commands.Converter; the
      source instantiates it and awaits `instance.convert(ctx, value)`,
      whose behaviour is f; any exception is wrapped into
      commands.ConversionError (CVErr.convErr).
    * Conv.converterInstance f: an instance of commands.Converter; the
      source awaits `converter.convert(ctx, value)`, wrapped the same way.
    * Conv.callable f: any other callable; the source calls
      `converter(value)`, wrapped the same way.
  A behaviour f : String -> Except Unit Value returns the converted value
  or signals that the call raised some exception.  (The source also
  probes a non-Converter class for a bound `convert` classmethod, calls
  it, discards the result and falls through to the plain call; no claim
  exercises that path and no Conv variant is given for it.)
- Exceptions are modelled by Except: CVErr classifies what escapes
  `_convert_value` (the two except clauses of `convert` distinguish
  exactly commands.ConversionError from everything else), and
  ConvertError is the error type of `convert` itself.
-/

namespace DiscordArgparse

/-- A converted value. The claims only involve booleans, integers and
strings, which is what the concrete converters used here produce. -/
inductive Value where
  | bool (b : Bool)
  | int (n : Int)
  | str (s : String)
deriving DecidableEq

/-- What escapes a call to `_convert_value`:
convErr models commands.ConversionError (raised by `_convert_to_bool` or
by the wrapping `raise commands.ConversionError(converter, e)` clauses);
nameErr models the NameError from the undefined global `_convert_to_bool`
on the `converter is bool` path; attrErr models the AttributeError from a
failed `getattr(converters, converter.__name__ + "Converter")`. -/
inductive CVErr where
  | convErr
  | nameErr
  | attrErr
deriving DecidableEq

/-- The shapes of converter `_convert_value` distinguishes (see header). -/
inductive Conv where
  | boolType
  | discordType (adapter : Option (String → Except Unit Value))
  | converterClass (f : String → Except Unit Value)
  | converterInstance (f : String → Except Unit Value)
  | callable (f : String → Except Unit Value)

/-- class Argument: converter, doc and default, plus the tag that in the
source is carried by the subclass (RequiredArgument / OptionalArgument).
A Python default of None (the "absent" sentinel) is Option.none. -/
structure Argument where
  converter : Conv
  doc : String
  default : Option Value
  required : Bool

/-- RequiredArgument(converter, doc, default). -/
def RequiredArgument (converter : Conv) (doc : String) (default : Option Value) : Argument :=
  ⟨converter, doc, default, true⟩

/-- OptionalArgument(converter, doc, default). -/
def OptionalArgument (converter : Conv) (doc : String) (default : Option Value) : Argument :=
  ⟨converter, doc, default, false⟩

/-- Python dict lookup d.get(k) / d[k] on an association list. -/
def dictGet {α : Type} (d : List (String × α)) (k : String) : Option α :=
  (d.find? (fun p => p.1 == k)).map (fun p => p.2)

/-- Python `k in d`. -/
def hasKey {α : Type} (d : List (String × α)) (k : String) : Bool :=
  d.any (fun p => p.1 == k)

/-- Python dict assignment d[k] = v: overwrite in place, else append. -/
def dictInsert {α : Type} (d : List (String × α)) (k : String) (v : α) : List (String × α) :=
  if hasKey d k then d.map (fun p => if p.1 == k then (k, v) else p)
  else d ++ [(k, v)]

/-- Python str.split(sep) for a one-character separator, on char lists:
"".split(sep) = [""], and every separator occurrence ends a piece. -/
def pySplit (sep : Char) : List Char → List (List Char)
  | [] => [[]]
  | c :: cs =>
    if c = sep then [] :: pySplit sep cs
    else
      match pySplit sep cs with
      | [] => [[c]]
      | w :: ws => (c :: w) :: ws

/-- Python sep.join(pieces) for a one-character separator. -/
def pyJoin (sep : Char) : List (List Char) → List Char
  | [] => []
  | [w] => w
  | w :: ws => w ++ sep :: pyJoin sep ws

/-- Python s.lower() (ASCII case folding suffices for the inputs involved). -/
def pyLower (s : String) : String :=
  ⟨s.data.map Char.toLower⟩

/-- The unpacking `name, *values = raw_arg.split("=")` followed by
`value = "=".join(values)` (convert, lines 168-169).  pySplit never
returns an empty list, so the catch-all first arm is dead code. -/
def splitNameValue (t : String) : String × String :=
  match pySplit '=' t.data with
  | [] => ("", "")
  | n :: rest => (⟨n⟩, ⟨pyJoin '=' rest⟩)

/-- shlex.split, modelled for inputs free of quotes, escapes and
non-space whitespace: split on runs of spaces, dropping empty words.
The accumulator carries the current word reversed. -/
def shlexSplitAux : List Char → List Char → List String
  | [], acc => if acc.isEmpty then [] else [⟨acc.reverse⟩]
  | c :: cs, acc =>
    if c = ' ' then
      if acc.isEmpty then shlexSplitAux cs []
      else (⟨acc.reverse⟩ : String) :: shlexSplitAux cs []
    else shlexSplitAux cs (c :: acc)

/-- shlex.split(argstr or "") at the top of convert. -/
def shlexSplit (s : String) : List String :=
  shlexSplitAux s.data []

/-- ArgumentConverter._convert_to_bool (lines 110-121): case-insensitive
membership in the fixed truthy and falsy literal tuples; otherwise raise
commands.ConversionError.  This is the method as written; note that the
call site in `_convert_value` fails to reach it (see Conv.boolType). -/
def _convert_to_bool (value : String) : Except CVErr Value :=
  let lowered := pyLower value
  if lowered ∈ ["ja", "yes", "y", "true", "t", "1", "enable", "on"] then
    .ok (.bool true)
  else if lowered ∈ ["nein", "no", "false", "f", "0", "disable", "off"] then
    .ok (.bool false)
  else .error .convErr

/-- One of the two try blocks of `_convert_value`: invoke a resolved
converter behaviour; any raised exception is re-raised as
commands.ConversionError(converter, e). -/
def invokeWrapped (f : String → Except Unit Value) (value : String) : Except CVErr Value :=
  match f value with
  | .ok v => .ok v
  | .error _ => .error .convErr

/-- ArgumentConverter._convert_value (lines 123-160), per converter shape
(see header for the line-by-line correspondence). -/
def _convert_value : Conv → String → Except CVErr Value
  | .boolType, _ => .error .nameErr
  | .discordType .none, _ => .error .attrErr
  | .discordType (.some f), value => invokeWrapped f value
  | .converterClass f, value => invokeWrapped f value
  | .converterInstance f, value => invokeWrapped f value
  | .callable f, value => invokeWrapped f value

/-- Errors `convert` can raise.  pyConversionError is the re-raised
`commands.ConversionError(self, e)` of line 185, carrying the class of
the original exception. -/
inductive ConvertError where
  | unknownArgument (name : String)
  | invalidArgumentValue (name : String) (value : String)
  | missingRequiredArgument (name : String)
  | pyConversionError (cause : CVErr)
deriving DecidableEq

/-- The token loop of ArgumentConverter.convert (lines 165-185):
skip tokens without "=", split on the first "=", look the lower-cased
name up (miss raises UnknownArgumentError with the original-cased name),
convert the value (a commands.ConversionError becomes
InvalidArgumentValueError(name, value); any other exception is re-raised
as commands.ConversionError(self, e)) and store the converted value under
the original-cased name. -/
def processTokens (arguments : List (String × Argument))
    (converted : List (String × Value)) :
    List String → Except ConvertError (List (String × Value))
  | [] => .ok converted
  | raw_arg :: rest =>
    if '=' ∈ raw_arg.data then
      let nv := splitNameValue raw_arg
      match dictGet arguments (pyLower nv.1) with
      | .none => .error (.unknownArgument nv.1)
      | .some argument =>
        match _convert_value argument.converter nv.2 with
        | .ok v => processTokens arguments (dictInsert converted nv.1 v) rest
        | .error .convErr => .error (.invalidArgumentValue nv.1 nv.2)
        | .error .nameErr => .error (.pyConversionError .nameErr)
        | .error .attrErr => .error (.pyConversionError .attrErr)
    else processTokens arguments converted rest

/-- The validation and defaulting loop of convert (lines 187-193): for
each declared argument in registry order, first raise
MissingRequiredArgument if it is a RequiredArgument absent from the
accumulated dict, then fill a non-None default if the name is absent. -/
def fillDefaults (converted : List (String × Value)) :
    List (String × Argument) → Except ConvertError (List (String × Value))
  | [] => .ok converted
  | (name, argument) :: rest =>
    if argument.required && !(hasKey converted name) then
      .error (.missingRequiredArgument name)
    else
      match argument.default with
      | .some d =>
        if hasKey converted name then fillDefaults converted rest
        else fillDefaults (dictInsert converted name d) rest
      | .none => fillDefaults converted rest

/-- convert, restricted to an already tokenized input (its body after the
call to shlex.split). -/
def convertTokens (arguments : List (String × Argument)) (tokens : List String) :
    Except ConvertError (List (String × Value)) :=
  match processTokens arguments [] tokens with
  | .ok converted => fillDefaults converted arguments
  | .error e => .error e

/-- ArgumentConverter.convert (lines 162-195). -/
def convert (arguments : List (String × Argument)) (argstr : String) :
    Except ConvertError (List (String × Value)) :=
  convertTokens arguments (shlexSplit argstr)

/-- One iteration of the loop in ArgumentConverter.defaults: copy a
non-None default into the accumulated dict. -/
def defaultsStep (acc : List (String × Value)) (p : String × Argument) :
    List (String × Value) :=
  match p.2.default with
  | .some d => dictInsert acc p.1 d
  | .none => acc

/-- ArgumentConverter.defaults (lines 197-203). -/
def defaults (arguments : List (String × Argument)) : List (String × Value) :=
  arguments.foldl defaultsStep []

/-- Decidable equality of Except outcomes, used to evaluate the model at
concrete inputs. -/
def exceptDecEq {ε α : Type} [DecidableEq ε] [DecidableEq α] :
    (x y : Except ε α) → Decidable (x = y)
  | .ok a, .ok b =>
    if h : a = b then .isTrue (by rw [h])
    else .isFalse (by intro hc; injection hc; contradiction)
  | .ok _, .error _ => .isFalse (by intro hc; cases hc)
  | .error _, .ok _ => .isFalse (by intro hc; cases hc)
  | .error e, .error f =>
    if h : e = f then .isTrue (by rw [h])
    else .isFalse (by intro hc; injection hc; contradiction)

instance {ε α : Type} [DecidableEq ε] [DecidableEq α] : DecidableEq (Except ε α) :=
  exceptDecEq

/-- The converted value a single structured token (name, value) would
produce: registry lookup of the lower-cased name followed by conversion;
none when either step fails. -/
def tokenValue (arguments : List (String × Argument)) (p : String × String) : Option Value :=
  match dictGet arguments (pyLower p.1) with
  | .some argument =>
    match _convert_value argument.converter p.2 with
    | .ok v => .some v
    | .error _ => .none
  | .none => .none

/-- Render a structured (name, value) pair as the token name=value. -/
def mkTok (p : String × String) : String :=
  p.1 ++ "=" ++ p.2

/-- A structured token that converts successfully: its name contains no
"=" (so the token splits back into exactly this pair) and both registry
lookup and value conversion succeed. -/
def goodToken (arguments : List (String × Argument)) (p : String × String) : Prop :=
  '=' ∉ p.1.data ∧ (tokenValue arguments p).isSome = true

instance (arguments : List (String × Argument)) (p : String × String) :
    Decidable (goodToken arguments p) := by
  unfold goodToken; infer_instance

/-- The effect of one successfully converting token on the accumulated
dict. -/
def insStep (arguments : List (String × Argument))
    (acc : List (String × Value)) (p : String × String) : List (String × Value) :=
  match tokenValue arguments p with
  | .some v => dictInsert acc p.1 v
  | .none => acc

/-- Number of entries of a dict with a given key. -/
def countKey (d : List (String × Value)) (k : String) : Nat :=
  (d.filter (fun p => p.1 == k)).length

/-- Extensional equality of result dicts (Python dict equality). -/
def mapsEquiv (m₁ m₂ : List (String × Value)) : Prop :=
  ∀ k, dictGet m₁ k = dictGet m₂ k

/-- Same outcome up to dict extensionality: equal errors, or result
dicts with identical lookups. -/
def resultsEquiv :
    Except ConvertError (List (String × Value)) →
    Except ConvertError (List (String × Value)) → Prop
  | .ok m₁, .ok m₂ => mapsEquiv m₁ m₂
  | .error e₁, .error e₂ => e₁ = e₂
  | _, _ => False

/-- The error kind with argument names erased (values kept), used to
state what is invariant under a change of name case. -/
inductive ErrKind where
  | unknown
  | invalid (value : String)
  | missing
  | pyConv (cause : CVErr)
deriving DecidableEq

def errKind : ConvertError → ErrKind
  | .unknownArgument _ => .unknown
  | .invalidArgumentValue _ v => .invalid v
  | .missingRequiredArgument _ => .missing
  | .pyConversionError c => .pyConv c

/-- Erase the (original-cased) names from a token-loop outcome, keeping
errors (up to name) and the sequence of converted values. -/
def caseBlind (r : Except ConvertError (List (String × Value))) :
    Except ErrKind (List Value) :=
  match r with
  | .ok m => .ok (m.map (fun p => p.2))
  | .error e => .error (errKind e)

/-- The resolved invocation behaviour of a converter shape: the function
whose call both try blocks of `_convert_value` wrap, when the shape
reaches one of them (bool dispatch and a failed adapter lookup do not). -/
def invokedBehavior : Conv → Option (String → Except Unit Value)
  | .boolType => .none
  | .discordType .none => .none
  | .discordType (.some f) => .some f
  | .converterClass f => .some f
  | .converterInstance f => .some f
  | .callable f => .some f

/-- The value of a decimal digit character. -/
def digitVal (c : Char) : Option Nat :=
  if '0' ≤ c ∧ c ≤ '9' then .some (c.toNat - '0'.toNat) else .none

/-- Parse a non-empty string of decimal digits. -/
def parseNat : List Char → Option Nat
  | [] => .none
  | cs =>
    cs.foldl
      (fun acc c =>
        match acc, digitVal c with
        | .some n, .some d => .some (n * 10 + d)
        | _, _ => .none)
      (.some 0)

/-- Python int(value) as a plain callable converter: an optional minus
sign followed by decimal digits; a parse failure models the raised
ValueError. -/
def pyIntConv : String → Except Unit Value :=
  fun s =>
    match s.data with
    | '-' :: rest =>
      match parseNat rest with
      | .some n => .ok (.int (-(n : Int)))
      | .none => .error ()
    | cs =>
      match parseNat cs with
      | .some n => .ok (.int (n : Int))
      | .none => .error ()

/-- A converter that accepts every string unchanged (e.g. str). -/
def strConv : String → Except Unit Value :=
  fun s => .ok (.str s)

/-- A converter whose every invocation raises. -/
def failConv : String → Except Unit Value :=
  fun _ => .error ()

/-- Registry with `images` declared with converter exactly bool. -/
def regC1 : List (String × Argument) :=
  [("images", OptionalArgument Conv.boolType "" .none)]

/-- Registry with a required `name` argument converted by int. -/
def regC2 : List (String × Argument) :=
  [("name", RequiredArgument (Conv.callable pyIntConv) "" .none)]

/-- Registry with `turns` declared Required with default 10. -/
def regC3 : List (String × Argument) :=
  [("turns", RequiredArgument (Conv.callable pyIntConv) "" (.some (.int 10)))]

/-- Registry whose `e` argument has as converter a discord.* type with no
<TypeName>Converter adapter in the converters module. -/
def regC4 : List (String × Argument) :=
  [("e", OptionalArgument (Conv.discordType .none) "" .none)]

/-- Registry whose `n` argument has a converter whose invocation raises. -/
def regC4w : List (String × Argument) :=
  [("n", OptionalArgument (Conv.callable failConv) "" .none)]

/-- Registry with two independent arguments for the permutation witness. -/
def regC5 : List (String × Argument) :=
  [("turns", RequiredArgument (Conv.callable pyIntConv) "" (.some (.int 10))),
   ("images", OptionalArgument (Conv.callable strConv) "" (.some (.bool true)))]

/-- The registry of the defaults example: turns Required(default 10),
images Optional(default True), voice_channel Optional(default None). -/
def regC6 : List (String × Argument) :=
  [("turns", RequiredArgument (Conv.callable pyIntConv) "" (.some (.int 10))),
   ("images", OptionalArgument (Conv.callable strConv) "" (.some (.bool true))),
   ("voice_channel", OptionalArgument (Conv.callable strConv) "" .none)]

/-- Registry declaring only `turns`. -/
def regC7 : List (String × Argument) :=
  [("turns", OptionalArgument (Conv.callable pyIntConv) "" .none)]

/-- Registry declaring `path` with a string converter. -/
def regC8 : List (String × Argument) :=
  [("path", OptionalArgument (Conv.callable strConv) "" .none)]

/-- Registry declaring only `turns` (no `foo`). -/
def regC9 : List (String × Argument) :=
  [("turns", OptionalArgument (Conv.callable pyIntConv) "" .none)]

/-- Registry declaring `name` with an int converter. -/
def regC10 : List (String × Argument) :=
  [("name", OptionalArgument (Conv.callable pyIntConv) "" .none)]

theorem pySplit_nil_eq (sep : Char) : pySplit sep ([] : List Char) = [[]] := rfl

theorem pySplit_cons_eq (sep : Char) (cs : List Char) :
    pySplit sep (sep :: cs) = [] :: pySplit sep cs := by
  simp [pySplit]

theorem pySplit_cons_ne (sep c : Char) (cs w : List Char) (ws : List (List Char))
    (h : c ≠ sep) (hcs : pySplit sep cs = w :: ws) :
    pySplit sep (c :: cs) = (c :: w) :: ws := by
  simp [pySplit, h, hcs]

theorem pySplit_ne_nil (sep : Char) (cs : List Char) : pySplit sep cs ≠ [] := by
  induction cs with
  | nil => simp [pySplit_nil_eq]
  | cons c cs ih =>
    by_cases h : c = sep
    · subst h
      rw [pySplit_cons_eq]
      simp
    · cases hcs : pySplit sep cs with
      | nil => exact absurd hcs ih
      | cons w ws =>
        rw [pySplit_cons_ne sep c cs w ws h hcs]
        simp

theorem pyJoin_cons (sep : Char) (w : List Char) {ws : List (List Char)} (h : ws ≠ []) :
    pyJoin sep (w :: ws) = w ++ sep :: pyJoin sep ws := by
  cases ws with
  | nil => exact absurd rfl h
  | cons x xs => rfl

theorem pySplit_head_not_mem (sep : Char) :
    ∀ cs n rest, pySplit sep cs = n :: rest → sep ∉ n := by
  intro cs
  induction cs with
  | nil =>
    intro n rest h
    rw [pySplit_nil_eq] at h
    injection h with h1 h2
    rw [← h1]
    simp
  | cons c cs ih =>
    intro n rest h
    by_cases hc : c = sep
    · subst hc
      rw [pySplit_cons_eq] at h
      injection h with h1 h2
      rw [← h1]
      simp
    · cases hcs : pySplit sep cs with
      | nil => exact absurd hcs (pySplit_ne_nil sep cs)
      | cons w ws =>
        rw [pySplit_cons_ne sep c cs w ws hc hcs] at h
        injection h with h1 h2
        rw [← h1]
        intro hmem
        rcases List.mem_cons.mp hmem with h' | h'
        · exact hc h'.symm
        · exact ih w ws hcs h'

theorem pyJoin_pySplit (sep : Char) : ∀ cs, pyJoin sep (pySplit sep cs) = cs := by
  intro cs
  induction cs with
  | nil => rfl
  | cons c cs ih =>
    by_cases hc : c = sep
    · subst hc
      rw [pySplit_cons_eq, pyJoin_cons c [] (pySplit_ne_nil c cs), ih]
      rfl
    · cases hcs : pySplit sep cs with
      | nil => exact absurd hcs (pySplit_ne_nil sep cs)
      | cons w ws =>
        rw [pySplit_cons_ne sep c cs w ws hc hcs]
        rw [hcs] at ih
        cases ws with
        | nil =>
          show c :: pyJoin sep [w] = c :: cs
          rw [ih]
        | cons x xs =>
          rw [pyJoin_cons sep (c :: w) (by simp)]
          rw [pyJoin_cons sep w (by simp)] at ih
          rw [← ih]
          rfl

theorem pySplit_rest_ne_nil (sep : Char) :
    ∀ cs n rest, sep ∈ cs → pySplit sep cs = n :: rest → rest ≠ [] := by
  intro cs
  induction cs with
  | nil => intro n rest h; simp at h
  | cons c cs ih =>
    intro n rest hmem h
    by_cases hc : c = sep
    · subst hc
      rw [pySplit_cons_eq] at h
      injection h with h1 h2
      rw [← h2]
      exact pySplit_ne_nil c cs
    · have hmem' : sep ∈ cs := by
        rcases List.mem_cons.mp hmem with h' | h'
        · exact absurd h'.symm hc
        · exact h'
      cases hcs : pySplit sep cs with
      | nil => exact absurd hcs (pySplit_ne_nil sep cs)
      | cons w ws =>
        rw [pySplit_cons_ne sep c cs w ws hc hcs] at h
        injection h with h1 h2
        rw [← h2]
        exact ih w ws hmem' hcs

theorem pySplit_append (sep : Char) :
    ∀ a b, sep ∉ a → pySplit sep (a ++ sep :: b) = a :: pySplit sep b := by
  intro a
  induction a with
  | nil =>
    intro b _
    show pySplit sep (sep :: b) = [] :: pySplit sep b
    exact pySplit_cons_eq sep b
  | cons x a ih =>
    intro b hmem
    have hx : x ≠ sep := fun h => hmem (by simp [h])
    have hrec := ih b (fun h => hmem (List.mem_cons_of_mem x h))
    show pySplit sep (x :: (a ++ sep :: b)) = (x :: a) :: pySplit sep b
    exact pySplit_cons_ne sep x (a ++ sep :: b) a (pySplit sep b) hx hrec

theorem data_mkTok (n v : String) : (mkTok (n, v)).data = n.data ++ '=' :: v.data := by
  show (n ++ "=" ++ v).data = _
  rw [String.data_append, String.data_append, List.append_assoc]
  rfl

theorem eq_mem_mkTok (n v : String) : '=' ∈ (mkTok (n, v)).data := by
  rw [data_mkTok]
  exact List.mem_append.mpr (Or.inr (List.mem_cons_self _ _))

theorem splitNameValue_mkTok (n v : String) (h : '=' ∉ n.data) :
    splitNameValue (mkTok (n, v)) = (n, v) := by
  unfold splitNameValue
  rw [data_mkTok, pySplit_append '=' n.data v.data h]
  show ((⟨n.data⟩ : String), (⟨pyJoin '=' (pySplit '=' v.data)⟩ : String)) = (n, v)
  rw [pyJoin_pySplit]

theorem splitNameValue_reconstruct (t : String) (h : '=' ∈ t.data) :
    (splitNameValue t).1 ++ "=" ++ (splitNameValue t).2 = t ∧
      '=' ∉ (splitNameValue t).1.data := by
  unfold splitNameValue
  cases hcs : pySplit '=' t.data with
  | nil => exact absurd hcs (pySplit_ne_nil '=' t.data)
  | cons n rest =>
    have hrest : rest ≠ [] := pySplit_rest_ne_nil '=' t.data n rest h hcs
    have hj : pyJoin '=' (n :: rest) = t.data := by
      rw [← hcs]
      exact pyJoin_pySplit '=' t.data
    constructor
    · apply String.ext
      rw [String.data_append, String.data_append, List.append_assoc]
      show n ++ ('=' :: pyJoin '=' rest) = t.data
      rw [← pyJoin_cons '=' n hrest]
      exact hj
    · exact pySplit_head_not_mem '=' t.data n rest hcs

theorem dictGet_nil {α : Type} (k : String) : dictGet ([] : List (String × α)) k = .none :=
  rfl

theorem dictGet_cons {α : Type} (p : String × α) (t : List (String × α)) (k : String) :
    dictGet (p :: t) k = if (p.1 == k) then .some p.2 else dictGet t k := by
  unfold dictGet
  rw [List.find?_cons]
  cases hp : (p.1 == k) with
  | true => simp
  | false => simp

theorem hasKey_cons {α : Type} (p : String × α) (t : List (String × α)) (k : String) :
    hasKey (p :: t) k = ((p.1 == k) || hasKey t k) := by
  unfold hasKey
  rw [List.any_cons]

theorem hasKey_eq_isSome {α : Type} (m : List (String × α)) (k : String) :
    hasKey m k = (dictGet m k).isSome := by
  induction m with
  | nil => rfl
  | cons p t ih =>
    rw [hasKey_cons, dictGet_cons]
    cases hp : (p.1 == k) with
    | true => simp
    | false => simp [ih]

theorem not_hasKey_forall {α : Type} (m : List (String × α)) (k : String)
    (h : hasKey m k = false) : ∀ p ∈ m, p.1 ≠ k := by
  intro p hp hpk
  have ht : hasKey m k = true := by
    unfold hasKey
    rw [List.any_eq_true]
    exact ⟨p, hp, by simp [hpk]⟩
  simp [ht] at h

theorem dictGet_replace_self {α : Type} (k : String) (v : α) :
    ∀ (m : List (String × α)), hasKey m k = true →
      dictGet (m.map (fun p => if (p.1 == k) then (k, v) else p)) k = .some v := by
  intro m
  induction m with
  | nil => intro h; simp [hasKey] at h
  | cons p t ih =>
    intro h
    by_cases hp : p.1 = k
    · simp [List.map_cons, hp, dictGet_cons]
    · have hpb : (p.1 == k) = false := by simp [hp]
      simp only [List.map_cons, hpb, Bool.false_eq_true, if_false]
      rw [dictGet_cons, if_neg (by simp [hpb])]
      apply ih
      rw [hasKey_cons, hpb] at h
      simpa using h

theorem dictGet_replace_other {α : Type} (k k' : String) (v : α) (hne : k' ≠ k) :
    ∀ (m : List (String × α)),
      dictGet (m.map (fun p => if (p.1 == k) then (k, v) else p)) k' = dictGet m k' := by
  intro m
  induction m with
  | nil => rfl
  | cons p t ih =>
    have hkk' : (k == k') = false := by
      simp only [beq_eq_false_iff_ne, ne_eq]
      exact fun h => hne h.symm
    by_cases hp : p.1 = k
    · have hpb : (p.1 == k) = true := by simp [hp]
      simp only [List.map_cons, hpb, if_true]
      rw [dictGet_cons, dictGet_cons]
      rw [if_neg (by simp [hkk']), if_neg (by simp [hp, hkk'])]
      exact ih
    · have hpb : (p.1 == k) = false := by simp [hp]
      simp only [List.map_cons, hpb, Bool.false_eq_true, if_false]
      rw [dictGet_cons, dictGet_cons]
      by_cases hpk' : p.1 = k'
      · simp [hpk']
      · have hpk'b : (p.1 == k') = false := by simp [hpk']
        rw [if_neg (by simp [hpk'b]), if_neg (by simp [hpk'b])]
        exact ih

theorem dictGet_append_self {α : Type} (k : String) (v : α) :
    ∀ (m : List (String × α)), hasKey m k = false →
      dictGet (m ++ [(k, v)]) k = .some v := by
  intro m
  induction m with
  | nil =>
    intro _
    rw [List.nil_append, dictGet_cons]
    simp
  | cons p t ih =>
    intro h
    rw [hasKey_cons] at h
    have hp : (p.1 == k) = false := by
      cases hpk : (p.1 == k) with
      | true => rw [hpk] at h; simp at h
      | false => rfl
    rw [List.cons_append, dictGet_cons, if_neg (by simp [hp])]
    apply ih
    rw [hp] at h
    simpa using h

theorem dictGet_append_other {α : Type} (k k' : String) (v : α) (hne : k' ≠ k) :
    ∀ (m : List (String × α)), dictGet (m ++ [(k, v)]) k' = dictGet m k' := by
  intro m
  have hkk' : (k == k') = false := by
    simp only [beq_eq_false_iff_ne, ne_eq]
    exact fun h => hne h.symm
  induction m with
  | nil =>
    rw [List.nil_append, dictGet_cons, if_neg (by simp [hkk'])]
  | cons p t ih =>
    rw [List.cons_append, dictGet_cons, dictGet_cons]
    by_cases hpk' : p.1 = k'
    · simp [hpk']
    · have hpk'b : (p.1 == k') = false := by simp [hpk']
      rw [if_neg (by simp [hpk'b]), if_neg (by simp [hpk'b])]
      exact ih

theorem dictGet_dictInsert {α : Type} (m : List (String × α)) (k : String) (v : α)
    (k' : String) :
    dictGet (dictInsert m k v) k' = if k' = k then .some v else dictGet m k' := by
  unfold dictInsert
  by_cases hk' : k' = k
  · subst hk'
    rw [if_pos rfl]
    cases hk : hasKey m k' with
    | true => simp only [hk, if_true]; exact dictGet_replace_self k' v m hk
    | false => simp only [hk, Bool.false_eq_true, if_false]; exact dictGet_append_self k' v m hk
  · rw [if_neg hk']
    cases hk : hasKey m k with
    | true => simp only [hk, if_true]; exact dictGet_replace_other k k' v hk' m
    | false => simp only [hk, Bool.false_eq_true, if_false]; exact dictGet_append_other k k' v hk' m

theorem hasKey_dictInsert {α : Type} (m : List (String × α)) (k : String) (v : α)
    (k' : String) :
    hasKey (dictInsert m k v) k' = ((k' == k) || hasKey m k') := by
  rw [hasKey_eq_isSome, dictGet_dictInsert, hasKey_eq_isSome]
  by_cases h : k' = k
  · simp [h]
  · simp [h, if_neg h, beq_iff_eq]

theorem map_fst_replace {α : Type} (m : List (String × α)) (k : String) (v : α) :
    (m.map (fun p => if (p.1 == k) then (k, v) else p)).map Prod.fst = m.map Prod.fst := by
  induction m with
  | nil => rfl
  | cons p t ih =>
    simp only [List.map_cons]
    by_cases hp : p.1 = k
    · have hpb : (p.1 == k) = true := by simp [hp]
      rw [if_pos (by simp [hpb]), ih]
      simp [hp]
    · have hpb : (p.1 == k) = false := by simp [hp]
      rw [if_neg (by simp [hpb]), ih]

theorem nodupKeys_dictInsert {α : Type} (m : List (String × α)) (k : String) (v : α)
    (h : (m.map Prod.fst).Nodup) : ((dictInsert m k v).map Prod.fst).Nodup := by
  unfold dictInsert
  cases hk : hasKey m k with
  | true =>
    simp only [hk, if_true]
    rw [map_fst_replace]
    exact h
  | false =>
    simp only [hk, Bool.false_eq_true, if_false]
    rw [List.map_append]
    apply List.Nodup.append h (by simp)
    intro a ha hb
    simp only [List.map_cons, List.map_nil, List.mem_singleton] at hb
    rcases List.mem_map.mp ha with ⟨p, hp, hpa⟩
    exact not_hasKey_forall m k hk p hp (by rw [hpa, hb])

theorem keyUnique {α : Type} :
    ∀ (m : List (String × α)), (m.map Prod.fst).Nodup →
      ∀ p q, p ∈ m → q ∈ m → p.1 = q.1 → p = q := by
  intro m
  induction m with
  | nil => intro _ p q hp; simp at hp
  | cons a t ih =>
    intro hnd p q hp hq hpq
    rw [List.map_cons, List.nodup_cons] at hnd
    rcases List.mem_cons.mp hp with hp' | hp' <;> rcases List.mem_cons.mp hq with hq' | hq'
    · rw [hp', hq']
    · exfalso
      apply hnd.1
      rw [hp'] at hpq
      rw [hpq]
      exact List.mem_map_of_mem Prod.fst hq'
    · exfalso
      apply hnd.1
      rw [hq'] at hpq
      rw [← hpq]
      exact List.mem_map_of_mem Prod.fst hp'
    · exact ih hnd.2 p q hp' hq' hpq

theorem findCongr {α : Type} (p q : α → Bool) :
    ∀ (l : List α), (∀ x ∈ l, p x = q x) → l.find? p = l.find? q := by
  intro l
  induction l with
  | nil => intro _; rfl
  | cons a t ih =>
    intro h
    have hpa := h a (List.mem_cons_self a t)
    cases hqa : q a with
    | true =>
      rw [List.find?_cons_of_pos _ (by rw [hpa]; exact hqa),
        List.find?_cons_of_pos _ hqa]
    | false =>
      rw [List.find?_cons_of_neg _ (by simp [hpa, hqa]),
        List.find?_cons_of_neg _ (by simp [hqa])]
      exact ih (fun x hx => h x (List.mem_cons_of_mem a hx))

theorem countKey_cons (p : String × Value) (t : List (String × Value)) (k : String) :
    countKey (p :: t) k =
      if (p.1 == k) then countKey t k + 1 else countKey t k := by
  unfold countKey
  rw [List.filter_cons]
  by_cases hp : (p.1 == k) = true
  · rw [if_pos hp, if_pos hp]
    rfl
  · rw [if_neg hp, if_neg hp]

theorem countKey_eq_zero (m : List (String × Value)) (k : String)
    (h : ∀ p ∈ m, p.1 ≠ k) : countKey m k = 0 := by
  induction m with
  | nil => rfl
  | cons p t ih =>
    rw [countKey_cons, if_neg (by simp [h p (List.mem_cons_self p t)])]
    exact ih (fun q hq => h q (List.mem_cons_of_mem p hq))

theorem countKey_eq_one (m : List (String × Value)) (k : String) (v : Value)
    (hnd : (m.map Prod.fst).Nodup) (h : dictGet m k = .some v) :
    countKey m k = 1 := by
  induction m with
  | nil => simp [dictGet_nil] at h
  | cons p t ih =>
    rw [List.map_cons, List.nodup_cons] at hnd
    rw [dictGet_cons] at h
    rw [countKey_cons]
    by_cases hp : p.1 = k
    · rw [if_pos (by simp [hp])]
      have hz : countKey t k = 0 := by
        apply countKey_eq_zero
        intro q hq hqk
        apply hnd.1
        rw [hp, ← hqk]
        exact List.mem_map_of_mem Prod.fst hq
      rw [hz]
    · rw [if_neg (by simp [hp])]
      rw [if_neg (by simp [hp])] at h
      exact ih hnd.2 h

theorem eq_mem_mkTok_pair (p : String × String) : '=' ∈ (mkTok p).data := by
  obtain ⟨n, v⟩ := p
  exact eq_mem_mkTok n v

theorem splitNameValue_mkTok_pair (p : String × String) (h : '=' ∉ p.1.data) :
    splitNameValue (mkTok p) = p := by
  obtain ⟨n, v⟩ := p
  exact splitNameValue_mkTok n v h

theorem tokenValue_some_elim (arguments : List (String × Argument)) (p : String × String)
    (v : Value) (h : tokenValue arguments p = .some v) :
    ∃ arg, dictGet arguments (pyLower p.1) = .some arg ∧
      _convert_value arg.converter p.2 = .ok v := by
  unfold tokenValue at h
  cases hl : dictGet arguments (pyLower p.1) with
  | none => rw [hl] at h; cases h
  | some arg =>
    simp only [hl] at h
    cases hc : _convert_value arg.converter p.2 with
    | ok w =>
      simp only [hc] at h
      refine ⟨arg, rfl, ?_⟩
      rw [hc]
      injection h with h1
      rw [h1]
    | error e =>
      simp only [hc] at h
      exact Option.noConfusion h

theorem processTokens_skip (arguments : List (String × Argument))
    (converted : List (String × Value)) (t : String) (ts : List String)
    (h : '=' ∉ t.data) :
    processTokens arguments converted (t :: ts) = processTokens arguments converted ts := by
  simp only [processTokens]
  rw [if_neg h]

theorem processTokens_unknown (arguments : List (String × Argument))
    (converted : List (String × Value)) (t : String) (ts : List String)
    (hmem : '=' ∈ t.data)
    (hlookup : dictGet arguments (pyLower (splitNameValue t).1) = .none) :
    processTokens arguments converted (t :: ts) =
      .error (.unknownArgument (splitNameValue t).1) := by
  simp only [processTokens]
  rw [if_pos hmem, hlookup]

theorem processTokens_step_ok (arguments : List (String × Argument))
    (converted : List (String × Value)) (p : String × String) (ts : List String)
    (arg : Argument) (v : Value)
    (hn : '=' ∉ p.1.data)
    (hl : dictGet arguments (pyLower p.1) = .some arg)
    (hc : _convert_value arg.converter p.2 = .ok v) :
    processTokens arguments converted (mkTok p :: ts) =
      processTokens arguments (dictInsert converted p.1 v) ts := by
  simp only [processTokens]
  rw [if_pos (eq_mem_mkTok_pair p), splitNameValue_mkTok_pair p hn]
  simp only [hl, hc]

theorem processTokens_all_good (arguments : List (String × Argument)) :
    ∀ (ps : List (String × String)) (converted : List (String × Value)),
      (∀ p ∈ ps, goodToken arguments p) →
      processTokens arguments converted (ps.map mkTok) =
        .ok (ps.foldl (insStep arguments) converted) := by
  intro ps
  induction ps with
  | nil => intro c _; rfl
  | cons p t ih =>
    intro c hall
    rcases hall p (List.mem_cons_self p t) with ⟨hn, hs⟩
    rcases Option.isSome_iff_exists.mp hs with ⟨v, hv⟩
    rcases tokenValue_some_elim arguments p v hv with ⟨arg, hl, hc⟩
    rw [List.map_cons, List.foldl_cons,
      processTokens_step_ok arguments c p (t.map mkTok) arg v hn hl hc]
    have hstep : insStep arguments c p = dictInsert c p.1 v := by
      unfold insStep
      rw [hv]
    rw [← hstep]
    exact ih (insStep arguments c p) (fun q hq => hall q (List.mem_cons_of_mem p hq))

theorem dictGet_foldl_insStep (arguments : List (String × Argument)) (k : String) :
    ∀ (ps : List (String × String)) (c : List (String × Value)),
      (∀ p ∈ ps, goodToken arguments p) →
      dictGet (ps.foldl (insStep arguments) c) k =
        (match (ps.filter (fun p => p.1 == k)).getLast? with
         | .some q => tokenValue arguments q
         | .none => dictGet c k) := by
  intro ps
  induction ps with
  | nil => intro c _; rfl
  | cons p t ih =>
    intro c hall
    rw [List.foldl_cons,
      ih (insStep arguments c p) (fun q hq => hall q (List.mem_cons_of_mem p hq)),
      List.filter_cons]
    rcases hall p (List.mem_cons_self p t) with ⟨hn, hs⟩
    rcases Option.isSome_iff_exists.mp hs with ⟨v, hv⟩
    cases hft : t.filter (fun q => q.1 == k) with
    | nil =>
      by_cases hp : p.1 = k
      · rw [if_pos (by simp [hp])]
        show dictGet (insStep arguments c p) k = tokenValue arguments p
        unfold insStep
        rw [hv, dictGet_dictInsert, if_pos hp.symm]
      · rw [if_neg (by simp [hp])]
        show dictGet (insStep arguments c p) k = dictGet c k
        unfold insStep
        rw [hv, dictGet_dictInsert, if_neg (fun h => hp h.symm)]
    | cons x xs =>
      cases hq : (x :: xs).getLast? with
      | none => simp at hq
      | some q =>
        by_cases hp : p.1 = k
        · rw [if_pos (by simp [hp]), List.getLast?_cons_cons, hq]
        · rw [if_neg (by simp [hp]), hq]

theorem nodupKeys_foldl_insStep (arguments : List (String × Argument)) :
    ∀ (ps : List (String × String)) (c : List (String × Value)),
      (c.map Prod.fst).Nodup →
      (((ps.foldl (insStep arguments) c).map Prod.fst)).Nodup := by
  intro ps
  induction ps with
  | nil => intro c h; exact h
  | cons p t ih =>
    intro c h
    rw [List.foldl_cons]
    apply ih
    unfold insStep
    cases tokenValue arguments p with
    | none => exact h
    | some v => exact nodupKeys_dictInsert c p.1 v h

theorem filter_key_length_le_one {α : Type} (l : List (String × α)) (k : String)
    (hnd : (l.map Prod.fst).Nodup) : (l.filter (fun p => p.1 == k)).length ≤ 1 := by
  induction l with
  | nil => simp
  | cons p t ih =>
    rw [List.map_cons, List.nodup_cons] at hnd
    rw [List.filter_cons]
    by_cases hp : p.1 = k
    · rw [if_pos (by simp [hp])]
      have hnil : t.filter (fun q => q.1 == k) = [] := by
        rw [List.filter_eq_nil_iff]
        intro q hq
        simp only [Bool.not_eq_true, beq_eq_false_iff_ne, ne_eq]
        intro hqk
        exact hnd.1 (by rw [hp, ← hqk]; exact List.mem_map_of_mem Prod.fst hq)
      rw [hnil]
      simp
    · rw [if_neg (by simp [hp])]
      exact ih hnd.2

theorem perm_eq_of_length_le_one {α : Type} (l₁ l₂ : List α) (h : l₁.Perm l₂)
    (hl : l₁.length ≤ 1) : l₁ = l₂ := by
  cases l₁ with
  | nil => exact (h.symm.eq_nil).symm
  | cons a t =>
    cases t with
    | nil => exact List.singleton_perm.mp h
    | cons b u => simp at hl

theorem mapsEquiv_dictInsert (m₁ m₂ : List (String × Value)) (k : String) (v : Value)
    (h : mapsEquiv m₁ m₂) : mapsEquiv (dictInsert m₁ k v) (dictInsert m₂ k v) := by
  intro k'
  rw [dictGet_dictInsert, dictGet_dictInsert]
  by_cases hk : k' = k
  · rw [if_pos hk, if_pos hk]
  · rw [if_neg hk, if_neg hk]
    exact h k'

theorem fillDefaults_congr :
    ∀ (args : List (String × Argument)) (m₁ m₂ : List (String × Value)),
      mapsEquiv m₁ m₂ → resultsEquiv (fillDefaults m₁ args) (fillDefaults m₂ args) := by
  intro args
  induction args with
  | nil => intro m₁ m₂ h; exact h
  | cons a rest ih =>
    intro m₁ m₂ h
    obtain ⟨name, argument⟩ := a
    simp only [fillDefaults]
    have hk : hasKey m₁ name = hasKey m₂ name := by
      rw [hasKey_eq_isSome, hasKey_eq_isSome, h name]
    rw [hk]
    by_cases hreq : (argument.required && !(hasKey m₂ name)) = true
    · rw [if_pos hreq, if_pos hreq]
      rfl
    · rw [if_neg hreq, if_neg hreq]
      cases hd : argument.default with
      | none => exact ih m₁ m₂ h
      | some d =>
        cases hkk : hasKey m₂ name with
        | true =>
          simp only [hkk, if_true]
          exact ih m₁ m₂ h
        | false =>
          simp only [hkk, Bool.false_eq_true, if_false]
          exact ih (dictInsert m₁ name d) (dictInsert m₂ name d)
            (mapsEquiv_dictInsert m₁ m₂ name d h)

theorem fillDefaults_missing_iff :
    ∀ (args : List (String × Argument)) (m : List (String × Value)) (n : String),
      ((args.map Prod.fst).Nodup) →
      (fillDefaults m args = .error (.missingRequiredArgument n) ↔
        (args.find? (fun p => p.2.required && !(hasKey m p.1))).map Prod.fst = .some n) := by
  intro args
  induction args with
  | nil =>
    intro m n _
    constructor
    · intro h; cases h
    · intro h; cases h
  | cons a rest ih =>
    intro m n hnd
    obtain ⟨name, argument⟩ := a
    rw [List.map_cons, List.nodup_cons] at hnd
    simp only [fillDefaults]
    rw [List.find?_cons]
    by_cases hreq : (argument.required && !(hasKey m name)) = true
    · rw [if_pos hreq]
      simp only [hreq]
      simp
    · have hreqf : (argument.required && !(hasKey m name)) = false := by
        simpa using hreq
      rw [if_neg hreq]
      simp only [hreqf]
      cases hd : argument.default with
      | none => exact ih m n hnd.2
      | some d =>
        cases hkk : hasKey m name with
        | true =>
          simp only [hkk, if_true]
          exact ih m n hnd.2
        | false =>
          simp only [hkk, Bool.false_eq_true, if_false]
          rw [ih (dictInsert m name d) n hnd.2]
          rw [findCongr _ _ rest ?_]
          intro q hq
          have hqname : q.1 ≠ name := by
            intro hqn
            apply hnd.1
            show name ∈ List.map Prod.fst rest
            rw [← hqn]
            exact List.mem_map_of_mem Prod.fst hq
          rw [hasKey_dictInsert]
          have : (q.1 == name) = false := by simp [hqname]
          rw [this]
          rw [Bool.false_or]

theorem processTokens_single (arguments : List (String × Argument))
    (converted : List (String × Value)) (n v : String) (ts : List String)
    (hn : '=' ∉ n.data) :
    processTokens arguments converted (mkTok (n, v) :: ts) =
      (match dictGet arguments (pyLower n) with
       | .none => .error (.unknownArgument n)
       | .some argument =>
         match _convert_value argument.converter v with
         | .ok w => processTokens arguments (dictInsert converted n w) ts
         | .error .convErr => .error (.invalidArgumentValue n v)
         | .error .nameErr => .error (.pyConversionError .nameErr)
         | .error .attrErr => .error (.pyConversionError .attrErr)) := by
  simp only [processTokens]
  rw [if_pos (eq_mem_mkTok n v), splitNameValue_mkTok n v hn]

theorem dictGet_foldl_defaultsStep :
    ∀ (args : List (String × Argument)) (acc : List (String × Value)) (k : String),
      ((args.map Prod.fst).Nodup) →
      dictGet (args.foldl defaultsStep acc) k =
        (((args.find? (fun p => p.1 == k)).bind (fun p => p.2.default)).or
          (dictGet acc k)) := by
  intro args
  induction args with
  | nil =>
    intro acc k _
    rw [List.foldl_nil]
    rfl
  | cons p t ih =>
    intro acc k hnd
    rw [List.map_cons, List.nodup_cons] at hnd
    rw [List.foldl_cons, List.find?_cons]
    by_cases hp : p.1 = k
    · have hpb : (p.1 == k) = true := by simp [hp]
      simp only [hpb]
      rw [ih (defaultsStep acc p) k hnd.2]
      have hft : t.find? (fun q => q.1 == k) = none := by
        rw [List.find?_eq_none]
        intro q hq
        simp only [Bool.not_eq_true, beq_eq_false_iff_ne, ne_eq]
        intro hqk
        apply hnd.1
        have hpq : p.1 = q.1 := hp.trans hqk.symm
        rw [hpq]
        exact List.mem_map_of_mem Prod.fst hq
      rw [hft]
      show dictGet (defaultsStep acc p) k = Option.or p.2.default (dictGet acc k)
      unfold defaultsStep
      cases hd : p.2.default with
      | some d =>
        rw [dictGet_dictInsert, if_pos hp.symm]
        rfl
      | none => rfl
    · have hpb : (p.1 == k) = false := by simp [hp]
      simp only [hpb]
      rw [ih (defaultsStep acc p) k hnd.2]
      have hstep : dictGet (defaultsStep acc p) k = dictGet acc k := by
        unfold defaultsStep
        cases hd : p.2.default with
        | some d => rw [dictGet_dictInsert, if_neg (fun h => hp h.symm)]
        | none => rfl
      rw [hstep]

/-- C1: the claim states that with images declared with converter exactly
bool, convert maps truthy and falsy literals to True and False and every
other string to InvalidArgumentValueError.  The code cannot do this: the
line `return _convert_to_bool(value)` in `_convert_value` names an
undefined module-level global (the method is only reachable through
self), so every bool conversion raises NameError, which convert
re-raises as a bare commands.ConversionError: even images=true fails
this way.  The method `_convert_to_bool` itself implements exactly the
claimed case-insensitive literal sets, so the claim describes the clear
intent and the code is a slip.  This theorem evaluates the model at the
failing inputs and records the behaviour of the unreachable method. -/
theorem claim_C1 :
    convert regC1 "images=true" = .error (.pyConversionError .nameErr) ∧
    convert regC1 "images=maybe" = .error (.pyConversionError .nameErr) ∧
    _convert_to_bool "ja" = .ok (.bool true) ∧
    _convert_to_bool "yes" = .ok (.bool true) ∧
    _convert_to_bool "y" = .ok (.bool true) ∧
    _convert_to_bool "true" = .ok (.bool true) ∧
    _convert_to_bool "t" = .ok (.bool true) ∧
    _convert_to_bool "1" = .ok (.bool true) ∧
    _convert_to_bool "enable" = .ok (.bool true) ∧
    _convert_to_bool "on" = .ok (.bool true) ∧
    _convert_to_bool "nein" = .ok (.bool false) ∧
    _convert_to_bool "no" = .ok (.bool false) ∧
    _convert_to_bool "false" = .ok (.bool false) ∧
    _convert_to_bool "f" = .ok (.bool false) ∧
    _convert_to_bool "0" = .ok (.bool false) ∧
    _convert_to_bool "disable" = .ok (.bool false) ∧
    _convert_to_bool "off" = .ok (.bool false) ∧
    _convert_to_bool "True" = .ok (.bool true) ∧
    _convert_to_bool "ON" = .ok (.bool true) ∧
    _convert_to_bool "NEIN" = .ok (.bool false) ∧
    _convert_to_bool "maybe" = .error .convErr := by
  decide

/-- C2 counterexample: the claim states that changing only the letter
case of an argument name yields an identical final result mapping.  With
a registry declaring the required argument name, the input Name=5 stores
the converted value under the original-cased key Name, so the
validation stage does not find the key name and raises
MissingRequiredArgument, while name=5 succeeds: the two final results
differ. -/
theorem claim_C2_counterexample :
    convert regC2 "Name=5" = .error (.missingRequiredArgument "name") ∧
    convert regC2 "name=5" = .ok [("name", .int 5)] ∧
    convert regC2 "Name=5" ≠ convert regC2 "name=5" := by
  decide

/-- C2 amended: registry lookup is case-insensitive (the token name is
lower-cased before lookup, and registration stores names as given), so
two single-token inputs whose names differ only in case resolve to the
same declared argument and produce the same outcome up to the
original-cased name: the same error kind carrying the same value, or a
result dict holding the same converted values; only the result keys
keep the case of the token, which can make the final mappings differ
after validation and defaulting. -/
theorem claim_C2 (arguments : List (String × Argument)) (n₁ n₂ v : String)
    (hcase : pyLower n₁ = pyLower n₂) (h1 : '=' ∉ n₁.data) (h2 : '=' ∉ n₂.data) :
    caseBlind (processTokens arguments [] [mkTok (n₁, v)]) =
      caseBlind (processTokens arguments [] [mkTok (n₂, v)]) := by
  rw [processTokens_single arguments [] n₁ v [] h1,
    processTokens_single arguments [] n₂ v [] h2, hcase]
  cases hdg : dictGet arguments (pyLower n₂) with
  | none => rfl
  | some argument =>
    cases hcv : _convert_value argument.converter v with
    | ok w =>
      simp only [hcv]
      rfl
    | error e =>
      cases e <;> (simp only [hcv]; try rfl)

theorem claim_C2_witness :
    pyLower "Name" = pyLower "name" ∧
    caseBlind (processTokens regC2 [] [mkTok ("Name", "5")]) =
      caseBlind (processTokens regC2 [] [mkTok ("name", "5")]) :=
  ⟨by decide, claim_C2 regC2 "Name" "name" "5" (by decide) (by decide) (by decide)⟩

/-- C3 counterexample: the claim states that a Required argument absent
from the input but carrying a declared non-sentinel default does not
cause MissingRequiredArgument.  With turns declared Required with
default 10 and an empty input, the validation loop checks the required
flag before considering the default and raises
MissingRequiredArgument anyway. -/
theorem claim_C3_counterexample :
    convert regC3 "" = .error (.missingRequiredArgument "turns") := by
  decide

/-- C3 amended: after the tokens are consumed, the conversion fails with
MissingRequiredArgument on the name of the first declared argument (in
registry order) that is Required and absent from the accumulated dict,
and only then; a declared default does not prevent this failure. -/
theorem claim_C3 (args : List (String × Argument)) (m : List (String × Value))
    (n : String) (hnd : ((args.map Prod.fst).Nodup)) :
    fillDefaults m args = .error (.missingRequiredArgument n) ↔
      (args.find? (fun p => p.2.required && !(hasKey m p.1))).map Prod.fst = .some n :=
  fillDefaults_missing_iff args m n hnd

theorem claim_C3_witness :
    ((regC3.map Prod.fst).Nodup) ∧
    (fillDefaults [] regC3 = .error (.missingRequiredArgument "turns") ↔
      (regC3.find?
        (fun p => p.2.required && !(hasKey ([] : List (String × Value)) p.1))).map
          Prod.fst = .some "turns") :=
  ⟨by decide, claim_C3 regC3 [] "turns" (by decide)⟩

/-- C4 counterexample: the claim states that any exception raised during
converter resolution or invocation surfaces as
InvalidArgumentValueError, never as a bare ConversionError.  With a
converter that is a discord.* type whose <TypeName>Converter adapter is
missing from the converters module, the getattr during resolution raises
AttributeError outside every try block of `_convert_value`; convert
catches it in its generic except clause and re-raises a bare
commands.ConversionError. -/
theorem claim_C4_counterexample :
    convert regC4 "e=x" = .error (.pyConversionError .attrErr) ∧
    convert regC4 "e=x" ≠ .error (.invalidArgumentValue "e" "x") := by
  decide

/-- C4 amended: any exception raised while invoking the resolved
converter (instantiated Converter class, Converter instance, resolved
discord adapter, or plain callable) is wrapped into a
commands.ConversionError by the dispatcher and surfaces from convert as
InvalidArgumentValueError carrying the declared name and the raw value;
only failures of the resolution steps themselves (the bool dispatch
NameError and the adapter getattr AttributeError) escape differently. -/
theorem claim_C4 (arguments : List (String × Argument)) (ts : List String)
    (n v : String) (arg : Argument) (f : String → Except Unit Value)
    (hn : '=' ∉ n.data)
    (hl : dictGet arguments (pyLower n) = .some arg)
    (hb : invokedBehavior arg.converter = .some f)
    (hf : f v = .error ()) :
    convertTokens arguments (mkTok (n, v) :: ts) =
      .error (.invalidArgumentValue n v) := by
  have hcv : _convert_value arg.converter v = .error .convErr := by
    cases hc : arg.converter with
    | boolType => rw [hc] at hb; cases hb
    | discordType a =>
      cases a with
      | none => rw [hc] at hb; cases hb
      | some g =>
        simp only [hc, invokedBehavior] at hb
        injection hb with h1
        show invokeWrapped g v = .error .convErr
        unfold invokeWrapped
        rw [h1, hf]
    | converterClass g =>
      simp only [hc, invokedBehavior] at hb
      injection hb with h1
      show invokeWrapped g v = .error .convErr
      unfold invokeWrapped
      rw [h1, hf]
    | converterInstance g =>
      simp only [hc, invokedBehavior] at hb
      injection hb with h1
      show invokeWrapped g v = .error .convErr
      unfold invokeWrapped
      rw [h1, hf]
    | callable g =>
      simp only [hc, invokedBehavior] at hb
      injection hb with h1
      show invokeWrapped g v = .error .convErr
      unfold invokeWrapped
      rw [h1, hf]
  unfold convertTokens
  rw [processTokens_single arguments [] n v ts hn]
  simp only [hl, hcv]

theorem claim_C4_witness :
    ('=' ∉ "n".data) ∧
    failConv "x" = .error () ∧
    convertTokens regC4w [mkTok ("n", "x")] = .error (.invalidArgumentValue "n" "x") :=
  ⟨by decide, rfl,
    claim_C4 regC4w [] "n" "x" (OptionalArgument (Conv.callable failConv) "" .none)
      failConv (by decide) rfl rfl rfl⟩

/-- C5: order independence.  For tokens over pairwise distinct declared
argument names whose registry lookups and value conversions all succeed,
running the whole conversion (token loop plus validation and defaulting)
on any permutation of the token list yields the same outcome up to dict
extensionality: the same final mapping, key by key. -/
theorem claim_C5 (arguments : List (String × Argument)) (ps qs : List (String × String))
    (hperm : ps.Perm qs)
    (hnd : ((ps.map (fun p => pyLower p.1)).Nodup))
    (hgood : ∀ p ∈ ps, goodToken arguments p) :
    resultsEquiv (convertTokens arguments (ps.map mkTok))
      (convertTokens arguments (qs.map mkTok)) := by
  have hgoodq : ∀ p ∈ qs, goodToken arguments p :=
    fun p hp => hgood p (hperm.mem_iff.mpr hp)
  have hndp : ((ps.map Prod.fst).Nodup) := by
    have hmm : ps.map (fun p => pyLower p.1) = (ps.map Prod.fst).map pyLower := by
      rw [List.map_map]
      rfl
    rw [hmm] at hnd
    exact hnd.of_map pyLower
  have hndq : ((qs.map Prod.fst).Nodup) := ((hperm.map Prod.fst).nodup_iff).mp hndp
  unfold convertTokens
  simp only [processTokens_all_good arguments ps [] hgood,
    processTokens_all_good arguments qs [] hgoodq]
  apply fillDefaults_congr
  intro k
  rw [dictGet_foldl_insStep arguments k ps [] hgood,
    dictGet_foldl_insStep arguments k qs [] hgoodq]
  have hfeq : ps.filter (fun p => p.1 == k) = qs.filter (fun p => p.1 == k) := by
    apply perm_eq_of_length_le_one _ _ (hperm.filter _)
    exact filter_key_length_le_one ps k hndp
  rw [hfeq]

theorem claim_C5_witness :
    (([("turns", "3"), ("images", "x")] : List (String × String)).Perm
      [("images", "x"), ("turns", "3")]) ∧
    resultsEquiv
      (convertTokens regC5 ([("turns", "3"), ("images", "x")].map mkTok))
      (convertTokens regC5 ([("images", "x"), ("turns", "3")].map mkTok)) :=
  ⟨by decide, claim_C5 regC5 [("turns", "3"), ("images", "x")]
    [("images", "x"), ("turns", "3")] (by decide) (by decide) (by decide)⟩

/-- C6: defaults is a pure query over the registry: the returned dict
binds a name exactly when the registry declares it with a non-None
default, to that default; arguments whose default is the None sentinel
are absent. -/
theorem claim_C6 (arguments : List (String × Argument))
    (hnd : ((arguments.map Prod.fst).Nodup)) (k : String) :
    dictGet (defaults arguments) k = (dictGet arguments k).bind (fun a => a.default) := by
  unfold defaults
  rw [dictGet_foldl_defaultsStep arguments [] k hnd]
  have hg : dictGet arguments k =
      (arguments.find? (fun p => p.1 == k)).map (fun p => p.2) := rfl
  rw [hg]
  cases hf : arguments.find? (fun p => p.1 == k) with
  | none => rfl
  | some p =>
    show Option.or p.2.default (dictGet ([] : List (String × Value)) k) = p.2.default
    cases hd : p.2.default with
    | some d => rfl
    | none => rfl

theorem claim_C6_witness :
    ((regC6.map Prod.fst).Nodup) ∧
    defaults regC6 = [("turns", .int 10), ("images", .bool true)] ∧
    dictGet (defaults regC6) "turns" = .some (.int 10) ∧
    dictGet (defaults regC6) "images" = .some (.bool true) ∧
    dictGet (defaults regC6) "voice_channel" = .none := by
  refine ⟨by decide, by decide, ?_, ?_, ?_⟩
  · rw [claim_C6 regC6 (by decide) "turns"]
    decide
  · rw [claim_C6 regC6 (by decide) "images"]
    decide
  · rw [claim_C6 regC6 (by decide) "voice_channel"]
    decide

/-- C7: a token whose lower-cased name misses the registry makes the
token loop fail immediately with UnknownArgumentError carrying the
original-cased name, whatever tokens follow and whatever was already
accumulated: no partial result is returned. -/
theorem claim_C7 (arguments : List (String × Argument))
    (converted : List (String × Value)) (t : String) (ts : List String)
    (hmem : '=' ∈ t.data)
    (hmiss : dictGet arguments (pyLower (splitNameValue t).1) = .none) :
    processTokens arguments converted (t :: ts) =
      .error (.unknownArgument (splitNameValue t).1) :=
  processTokens_unknown arguments converted t ts hmem hmiss

theorem claim_C7_witness :
    ('=' ∈ "bogus=1".data) ∧
    processTokens regC7 [] ["bogus=1", "turns=2"] = .error (.unknownArgument "bogus") := by
  refine ⟨by decide, ?_⟩
  have h := claim_C7 regC7 [] "bogus=1" ["turns=2"] (by decide) rfl
  rw [h]
  decide

/-- C8: a token containing an equals sign splits on the first one: the
computed name and value recompose to the token around a single equals
sign and the name contains none, so every further equals sign is kept
verbatim in the value. -/
theorem claim_C8 (t : String) (h : '=' ∈ t.data) :
    (splitNameValue t).1 ++ "=" ++ (splitNameValue t).2 = t ∧
      '=' ∉ (splitNameValue t).1.data :=
  splitNameValue_reconstruct t h

theorem claim_C8_witness :
    ('=' ∈ "path=a=b".data) ∧
    splitNameValue "path=a=b" = ("path", "a=b") ∧
    ((splitNameValue "path=a=b").1 ++ "=" ++ (splitNameValue "path=a=b").2 = "path=a=b" ∧
      '=' ∉ (splitNameValue "path=a=b").1.data) ∧
    convert regC8 "path=a=b" = .ok [("path", .str "a=b")] :=
  ⟨by decide, by decide, claim_C8 "path=a=b" (by decide), by decide⟩

/-- C9: a token without an equals sign is dropped silently: the token
loop continues on the remaining tokens with the accumulated dict
unchanged, performing no registry lookup and raising no error for the
dropped token. -/
theorem claim_C9 (arguments : List (String × Argument))
    (converted : List (String × Value)) (t : String) (ts : List String)
    (h : '=' ∉ t.data) :
    processTokens arguments converted (t :: ts) = processTokens arguments converted ts :=
  processTokens_skip arguments converted t ts h

theorem claim_C9_witness :
    ('=' ∉ "foo".data) ∧
    shlexSplit "foo turns=2" = ["foo", "turns=2"] ∧
    processTokens regC9 [] ["foo", "turns=2"] = processTokens regC9 [] ["turns=2"] ∧
    convert regC9 "foo turns=2" = convert regC9 "turns=2" :=
  ⟨by decide, by decide, claim_C9 regC9 [] "foo" ["turns=2"] (by decide), by decide⟩

/-- C10: when the same original-cased name labels several tokens and
every token converts successfully, the token loop succeeds and its
result dict holds exactly one entry under that name, bound to the
converted value of the last such token. -/
theorem claim_C10 (arguments : List (String × Argument)) (ps : List (String × String))
    (n v : String) (w : Value)
    (hgood : ∀ p ∈ ps, goodToken arguments p)
    (hlast : (ps.filter (fun p => p.1 == n)).getLast? = .some (n, v))
    (hw : tokenValue arguments (n, v) = .some w) :
    ∃ m, processTokens arguments [] (ps.map mkTok) = .ok m ∧
      dictGet m n = .some w ∧ countKey m n = 1 := by
  refine ⟨ps.foldl (insStep arguments) [],
    processTokens_all_good arguments ps [] hgood, ?_, ?_⟩
  · rw [dictGet_foldl_insStep arguments n ps [] hgood, hlast]
    exact hw
  · apply countKey_eq_one _ n w
    · exact nodupKeys_foldl_insStep arguments ps [] (by simp)
    · rw [dictGet_foldl_insStep arguments n ps [] hgood, hlast]
      exact hw

theorem claim_C10_witness :
    (∀ p ∈ ([("name", "1"), ("name", "7")] : List (String × String)),
      goodToken regC10 p) ∧
    ((([("name", "1"), ("name", "7")] : List (String × String)).filter
        (fun p => p.1 == "name")).getLast? = .some ("name", "7")) ∧
    tokenValue regC10 ("name", "7") = .some (.int 7) ∧
    (∃ m, processTokens regC10 [] ([("name", "1"), ("name", "7")].map mkTok) = .ok m ∧
      dictGet m "name" = .some (.int 7) ∧ countKey m "name" = 1) :=
  ⟨by decide, by decide, by decide,
    claim_C10 regC10 [("name", "1"), ("name", "7")] "name" "7" (.int 7)
      (by decide) (by decide) (by decide)⟩

end DiscordArgparse
